import Mathlib

/-!
Shallow embedding of the change-management script (`.github/change_management.py`).

Python strings are modelled as Lean `String`s (a structure over `List Char`);
`str.splitlines()` is modelled for the newline character `'\n'`, which is the
line boundary the script's block format uses.  `str.index` (which raises
`ValueError` when the substring is absent) is modelled with `Option Nat`;
a raised exception surfaces as `ParseResult.error` / `Except.error`.
-/

/-- Fixed label line of the annotation block: `<summary>Change Management</summary>`. -/
def summaryLabelL : List Char := "<summary>Change Management</summary>".data

/-- Opening delimiter line `<details>`. -/
def detailsOpenL : List Char := "<details>".data

/-- Closing delimiter line `</details>`. -/
def detailsCloseL : List Char := "</details>".data

/-- The text `"\n<details>"` appended by the accumulation defect in the strip loop. -/
def nlDetailsOpenL : List Char := '\n' :: detailsOpenL

/-- The substring `href` searched by `parse_cm_info_from_pr_body`. -/
def hrefL : List Char := "href".data

/-- The substring `"` (one double quote). -/
def quoteL : List Char := ['"']

/-- Prefix of the link line produced by `add_cm_details_to_pr_body`: `<a href="`. -/
def aOpenL : List Char := "<a href=\"".data

/-- Suffix of the link line produced by `add_cm_details_to_pr_body`: `">Asana task</a>`. -/
def aCloseL : List Char := "\">Asana task</a>".data

/-- Python `str.split(sep)` for a single-character separator, on char lists.
Always returns a non-empty list; `split '"' [] = [[]]` like Python `"".split`. -/
def splitOnChar (sep : Char) : List Char → List (List Char)
  | [] => [[]]
  | c :: rest =>
    if c = sep then [] :: splitOnChar sep rest
    else
      match splitOnChar sep rest with
      | [] => [[c]]
      | l :: ls => (c :: l) :: ls

/-- Splitting on the newline character. -/
def splitOnNl (l : List Char) : List (List Char) := splitOnChar '\n' l

/-- Python `str.splitlines()` for `'\n'` boundaries: empty string gives `[]`,
and one trailing newline does not produce a trailing empty line. -/
def pySplitlinesL (l : List Char) : List (List Char) :=
  if l = [] then []
  else if l.getLast? = some '\n' then splitOnNl l.dropLast
  else splitOnNl l

/-- `listStartsWith pat l` is true when `pat` is a prefix of `l`. -/
def listStartsWith : List Char → List Char → Bool
  | [], _ => true
  | _ :: _, [] => false
  | p :: ps, c :: cs => if p = c then listStartsWith ps cs else false

/-- First position `≥ i` (reported absolutely, scanning `l`) where `sub` occurs. -/
def findSubAux (sub : List Char) : List Char → Nat → Option Nat
  | [], i => if sub = [] then some i else none
  | c :: rest, i =>
    if listStartsWith sub (c :: rest) = true then some i
    else findSubAux sub rest (i + 1)

/-- Python `str.index(sub, start)`: first occurrence of `sub` at position `≥ start`;
`none` models the raised `ValueError`. -/
def pyIndexFrom (l sub : List Char) (start : Nat) : Option Nat :=
  findSubAux sub (l.drop start) start

/-- Python `sub in s` substring test. -/
def containsSub (l sub : List Char) : Bool := (findSubAux sub l 0).isSome

/-- The dict `{"task_gid": ..., "task_url": ...}` built by the script. -/
structure CmInfo where
  task_gid : String
  task_url : String
deriving DecidableEq

/-- Result of `parse_cm_info_from_pr_body`: a found dict, Python `None`,
or a raised exception (`ValueError` from `str.index`). -/
inductive ParseResult where
  | found : CmInfo → ParseResult
  | absent : ParseResult
  | error : ParseResult
deriving DecidableEq

/-- The body of the `elif next_line:` branch of `parse_cm_info_from_pr_body`:
`href_index = line.index("href")`, `url_start_index = line.index('"', href_index) + 1`,
`url_end_index = line.index('"', url_start_index)`, slice the URL and take the
final `/`-segment as the gid.  `none` models a raised `ValueError`. -/
def parseHrefLine (line : List Char) : Option CmInfo :=
  match pyIndexFrom line hrefL 0 with
  | none => none
  | some hrefIndex =>
    match pyIndexFrom line quoteL hrefIndex with
    | none => none
    | some q =>
      match pyIndexFrom line quoteL (q + 1) with
      | none => none
      | some urlEnd =>
        let url := (line.drop (q + 1)).take (urlEnd - (q + 1))
        some ⟨String.mk ((splitOnChar '/' url).getLastD []), String.mk url⟩

/-- The `for line in pr_body.splitlines()` loop of `parse_cm_info_from_pr_body`,
carrying the `next_line` flag. -/
def parseLoop : List (List Char) → Bool → ParseResult
  | [], _ => ParseResult.absent
  | line :: rest, nextLine =>
    if line = summaryLabelL then parseLoop rest true
    else if nextLine = true then
      match parseHrefLine line with
      | some info => ParseResult.found info
      | none => ParseResult.error
    else parseLoop rest nextLine

/-- `parse_cm_info_from_pr_body(pr_body)`. -/
def parse_cm_info_from_pr_body (pr_body : String) : ParseResult :=
  parseLoop (pySplitlinesL pr_body.data) false

/-- `add_cm_details_to_pr_body(pr_body, cm_task_url)`: the f-string template
`f"""{pr_body}\n\n<details>\n<summary>Change Management</summary>\n<a href="{url}">Asana task</a>\n</details>\n"""`. -/
def add_cm_details_to_pr_body (pr_body cm_task_url : String) : String :=
  pr_body ++ "\n\n<details>\n<summary>Change Management</summary>\n<a href=\"" ++
    cm_task_url ++ "\">Asana task</a>\n</details>\n"

/-- The `for line in pr_body.splitlines()` loop of `remove_cm_details_from_pr_body`,
carrying `new_body`, `in_cm` and `test_in_cm`.  Mirrors the source line by line:
the first branch is the `continue` after seeing `<details>`; the second is the
label confirmation; otherwise, while `test_in_cm` is set the text `"\n<details>"`
is appended (and `test_in_cm` stays set), then a retained line is appended with a
`"\n"` prefix, then `in_cm` is cleared on `</details>`. -/
def removeCmLoop : List (List Char) → List Char → Bool → Bool → List Char
  | [], newBody, _, _ => newBody
  | line :: rest, newBody, inCm, testInCm =>
    if testInCm = false ∧ line = detailsOpenL then
      removeCmLoop rest newBody inCm true
    else if testInCm = true ∧ line = summaryLabelL then
      removeCmLoop rest newBody true false
    else
      let nb1 := if testInCm = true then newBody ++ nlDetailsOpenL else newBody
      let nb2 := if inCm = false then nb1 ++ '\n' :: line else nb1
      let inCm2 := if inCm = true ∧ line = detailsCloseL then false else inCm
      removeCmLoop rest nb2 inCm2 testInCm

/-- `remove_cm_details_from_pr_body(pr_body)`. -/
def remove_cm_details_from_pr_body (pr_body : String) : String :=
  String.mk (removeCmLoop (pySplitlinesL pr_body.data) [] false false)

/-- An HTTP response as seen by the two thin clients. -/
structure HttpResponse where
  status_code : Nat
  text : String
  jsonBody : String
deriving DecidableEq

/-- `post_to_asana`: raises (message = `res.text`) when `res.status_code > 299`,
otherwise returns `res.json()`.  The request itself is the collaborator's side;
the function is modelled on the response it gets back. -/
def post_to_asana (uri : String) (method : String) (res : HttpResponse) :
    Except String String :=
  if res.status_code > 299 then Except.error res.text else Except.ok res.jsonBody

/-- `post_to_github`: same status check and error contract as `post_to_asana`. -/
def post_to_github (uri : String) (method : String) (res : HttpResponse) :
    Except String String :=
  if res.status_code > 299 then Except.error res.text else Except.ok res.jsonBody

/-- A 2xx HTTP success code, as the spec words it. -/
def is2xx (status : Nat) : Bool := 200 ≤ status && status ≤ 299

/-- One remote call made by the script, abstracted to the operation and its
arguments (the HTTP layer is the `post_to_asana` / `post_to_github` model above).
`updatePrBody` is the only repository-host (GitHub) call; all others go to the
tracking service (Asana). -/
inductive RemoteEffect where
  | createTask (name : String)
  | addComment (taskGid text : String)
  | addTaskToSection (taskGid : String)
  | renameTask (taskGid name : String)
  | completeTask (taskGid : String)
  | deleteTask (taskGid : String)
  | updatePrBody (repo : String) (prNumber : Nat) (newBody : String)
deriving DecidableEq

/-- The `__main__` orchestration: normalizes a `None` body, ensures a task exists
(creating one and embedding the marker when the label substring is absent),
then dispatches on the event action.  Returns the ordered list of remote calls
and the final pull-request body on the host; `Except.error` models an uncaught
Python exception (`IndexError` from `repo.split("/")[1]`, `ValueError` from
parsing, or `TypeError` from subscripting a `None` `cm_task_info`).
`createdGid`/`createdUrl` stand for the tracking service's response to task
creation (`task_data["gid"]` / `task_data["permalink_url"]`). -/
def runMain (repo : String) (prNumber : Nat) (prTitle prUserLogin prHtmlHref : String)
    (prBody? : Option String) (merged : Bool) (githubEventAction : String)
    (createdGid createdUrl : String) : Except Unit (List RemoteEffect × String) :=
  let body := prBody?.getD ""
  let ensure : Except Unit (List RemoteEffect × Option CmInfo × String) :=
    if containsSub body.data summaryLabelL = false then
      match (splitOnChar '/' repo.data)[1]? with
      | none => Except.error ()
      | some repoNameL =>
        let taskName := String.mk repoNameL ++ ": " ++ prTitle
        let comment := "PR created by " ++ prUserLogin ++ ": " ++ prHtmlHref
        let newBody := add_cm_details_to_pr_body body createdUrl
        Except.ok ([RemoteEffect.createTask taskName,
                    RemoteEffect.addComment createdGid comment,
                    RemoteEffect.addTaskToSection createdGid,
                    RemoteEffect.updatePrBody repo prNumber newBody],
                   some ⟨createdGid, createdUrl⟩, newBody)
    else
      match parse_cm_info_from_pr_body body with
      | ParseResult.error => Except.error ()
      | ParseResult.absent => Except.ok ([], none, body)
      | ParseResult.found info => Except.ok ([], some info, body)
  match ensure with
  | Except.error e => Except.error e
  | Except.ok (effs0, info?, curBody) =>
    let afterEdit : Except Unit (List RemoteEffect) :=
      if githubEventAction = "edited" then
        match info? with
        | none => Except.error ()
        | some info =>
          match (splitOnChar '/' repo.data)[1]? with
          | none => Except.error ()
          | some repoNameL =>
            Except.ok (effs0 ++
              [RemoteEffect.renameTask info.task_gid (String.mk repoNameL ++ ": " ++ prTitle)])
      else Except.ok effs0
    match afterEdit with
    | Except.error e => Except.error e
    | Except.ok effs1 =>
      if githubEventAction = "closed" then
        match info? with
        | none => Except.error ()
        | some info =>
          if merged then
            Except.ok (effs1 ++
              [RemoteEffect.addComment info.task_gid ("PR merged by " ++ prUserLogin),
               RemoteEffect.completeTask info.task_gid], curBody)
          else
            Except.ok (effs1 ++
              [RemoteEffect.updatePrBody repo prNumber (remove_cm_details_from_pr_body body),
               RemoteEffect.deleteTask info.task_gid],
              remove_cm_details_from_pr_body body)
      else Except.ok (effs1, curBody)

/-! ### Helper lemmas about splitting -/

theorem splitOnChar_ne_nil (sep : Char) (l : List Char) : splitOnChar sep l ≠ [] := by
  cases l with
  | nil => simp [splitOnChar]
  | cons c t =>
    simp only [splitOnChar]
    split
    · simp
    · split <;> simp

theorem splitOnChar_cons (sep c : Char) (t : List Char) :
    splitOnChar sep (c :: t) =
      if c = sep then [] :: splitOnChar sep t
      else
        match splitOnChar sep t with
        | [] => [[c]]
        | l :: ls => (c :: l) :: ls := rfl

theorem splitOnChar_cons_sep (sep : Char) (l : List Char) :
    splitOnChar sep (sep :: l) = [] :: splitOnChar sep l := by
  rw [splitOnChar_cons, if_pos rfl]

theorem splitOnChar_append (sep : Char) (a b : List Char) :
    splitOnChar sep (a ++ sep :: b) = splitOnChar sep a ++ splitOnChar sep b := by
  induction a with
  | nil => simp [splitOnChar]
  | cons c t ih =>
    rw [List.cons_append, splitOnChar_cons, splitOnChar_cons, ih]
    by_cases hc : c = sep
    · rw [if_pos hc, if_pos hc, List.cons_append]
    · rw [if_neg hc, if_neg hc]
      cases h : splitOnChar sep t with
      | nil => exact absurd h (splitOnChar_ne_nil sep t)
      | cons p ps => rfl

theorem splitOnChar_eq_single (sep : Char) (l : List Char) (h : sep ∉ l) :
    splitOnChar sep l = [l] := by
  induction l with
  | nil => rfl
  | cons c t ih =>
    have hc : ¬ c = sep := fun hh => h (by simp [hh])
    have ht : sep ∉ t := fun hh => h (List.mem_cons_of_mem _ hh)
    simp [splitOnChar, hc, ih ht]

theorem splitOnChar_pieces_no_sep (sep : Char) (l : List Char) :
    ∀ p ∈ splitOnChar sep l, sep ∉ p := by
  induction l with
  | nil =>
    intro p hp
    rw [show splitOnChar sep [] = [[]] from rfl] at hp
    have hp' : p = [] := by simpa using hp
    simp [hp']
  | cons c t ih =>
    intro p hp
    rw [splitOnChar_cons] at hp
    by_cases hc : c = sep
    · rw [if_pos hc] at hp
      rcases List.mem_cons.mp hp with h | h
      · simp [h]
      · exact ih p h
    · rw [if_neg hc] at hp
      cases hsp : splitOnChar sep t with
      | nil => exact absurd hsp (splitOnChar_ne_nil sep t)
      | cons q qs =>
        rw [hsp] at hp
        have hp' : p ∈ (c :: q) :: qs := hp
        rcases List.mem_cons.mp hp' with h | h
        · subst h
          intro hmem
          rcases List.mem_cons.mp hmem with h | h
          · exact hc h.symm
          · exact (ih q (by rw [hsp]; exact List.mem_cons_self q qs)) h
        · exact ih p (by rw [hsp]; exact List.mem_cons_of_mem q h)

theorem splitOnChar_last_ne_nil (sep : Char) (l : List Char) (h0 : l ≠ [])
    (h1 : l.getLast? ≠ some sep) : (splitOnChar sep l).getLast? ≠ some [] := by
  induction l with
  | nil => exact absurd rfl h0
  | cons c t ih =>
    cases t with
    | nil =>
      have hc : ¬ c = sep := fun hh => h1 (by simp [hh])
      rw [splitOnChar_cons, if_neg hc]
      show ([[c]] : List (List Char)).getLast? ≠ some []
      simp
    | cons d u =>
      have ht : (d :: u : List Char) ≠ [] := by simp
      have h1' : (d :: u).getLast? ≠ some sep := by
        intro hh
        exact h1 (by rw [List.getLast?_cons_cons]; exact hh)
      have ihr := ih ht h1'
      cases hsp : splitOnChar sep (d :: u) with
      | nil => exact absurd hsp (splitOnChar_ne_nil sep _)
      | cons q qs =>
        rw [hsp] at ihr
        rw [splitOnChar_cons]
        by_cases hc : c = sep
        · rw [if_pos hc, hsp, List.getLast?_cons_cons]
          exact ihr
        · rw [if_neg hc, hsp]
          show ((c :: q) :: qs).getLast? ≠ some []
          cases qs with
          | nil => simp
          | cons r rs =>
            rw [List.getLast?_cons_cons]
            rw [List.getLast?_cons_cons] at ihr
            exact ihr

theorem pySplitlinesL_concat_nl (a : List Char) :
    pySplitlinesL (a ++ ['\n']) = splitOnNl a := by
  unfold pySplitlinesL
  rw [if_neg (by simp), if_pos (by rw [List.getLast?_concat]), List.dropLast_concat]

/-! ### Helper lemmas about substring search -/

theorem listStartsWith_nil (l : List Char) : listStartsWith [] l = true := by
  cases l <;> rfl

theorem lsw_cons_ne (p c : Char) (ps cs : List Char) (h : ¬ p = c) :
    listStartsWith (p :: ps) (c :: cs) = false := by
  simp [listStartsWith, h]

theorem lsw_cons_eq (p : Char) (ps cs : List Char) :
    listStartsWith (p :: ps) (p :: cs) = listStartsWith ps cs := by
  simp [listStartsWith]

theorem findSubAux_skip (sub : List Char) (c : Char) (rest : List Char) (i : Nat)
    (h : listStartsWith sub (c :: rest) = false) :
    findSubAux sub (c :: rest) i = findSubAux sub rest (i + 1) := by
  simp [findSubAux, h]

theorem findSubAux_here (sub : List Char) (c : Char) (rest : List Char) (i : Nat)
    (h : listStartsWith sub (c :: rest) = true) :
    findSubAux sub (c :: rest) i = some i := by
  simp [findSubAux, h]

theorem findSubAux_quote (u tail : List Char) (i : Nat) (h : '"' ∉ u) :
    findSubAux quoteL (u ++ '"' :: tail) i = some (i + u.length) := by
  induction u generalizing i with
  | nil =>
    rw [List.nil_append,
      findSubAux_here _ _ _ _ (by rw [show quoteL = '"' :: [] from rfl, lsw_cons_eq]; exact listStartsWith_nil tail)]
    simp
  | cons c t ih =>
    have hc : ¬ ('"' : Char) = c := fun hh => h (by simp [hh.symm])
    have ht : '"' ∉ t := fun hh => h (List.mem_cons_of_mem _ hh)
    rw [List.cons_append,
      findSubAux_skip _ _ _ _ (by rw [show quoteL = '"' :: [] from rfl]; exact lsw_cons_ne _ _ _ _ hc),
      ih _ ht]
    congr 1
    simp only [List.length_cons]
    omega

theorem containsSub_false_find (l sub : List Char) (h : containsSub l sub = false) :
    findSubAux sub l 0 = none := by
  unfold containsSub at h
  exact Option.not_isSome_iff_eq_none.mp (by simp [h])

/-! ### The link line produced by insertion parses back to its URL -/

theorem findSub_href_aOpen (u : List Char) : findSubAux hrefL (aOpenL ++ u) 0 = some 3 := by
  rw [show aOpenL ++ u = '<' :: 'a' :: ' ' :: 'h' :: 'r' :: 'e' :: 'f' :: '=' :: '"' :: u from rfl]
  have hh : hrefL = 'h' :: 'r' :: 'e' :: 'f' :: [] := rfl
  rw [findSubAux_skip _ _ _ _ (by rw [hh]; exact lsw_cons_ne _ _ _ _ (by decide)),
    findSubAux_skip _ _ _ _ (by rw [hh]; exact lsw_cons_ne _ _ _ _ (by decide)),
    findSubAux_skip _ _ _ _ (by rw [hh]; exact lsw_cons_ne _ _ _ _ (by decide)),
    findSubAux_here _ _ _ _ (by
      rw [hh, lsw_cons_eq, lsw_cons_eq, lsw_cons_eq, lsw_cons_eq]
      exact listStartsWith_nil _)]

theorem findSub_quote_after_href (u : List Char) :
    findSubAux quoteL ('h' :: 'r' :: 'e' :: 'f' :: '=' :: '"' :: u) 3 = some 8 := by
  have hq : quoteL = '"' :: [] := rfl
  rw [findSubAux_skip _ _ _ _ (by rw [hq]; exact lsw_cons_ne _ _ _ _ (by decide)),
    findSubAux_skip _ _ _ _ (by rw [hq]; exact lsw_cons_ne _ _ _ _ (by decide)),
    findSubAux_skip _ _ _ _ (by rw [hq]; exact lsw_cons_ne _ _ _ _ (by decide)),
    findSubAux_skip _ _ _ _ (by rw [hq]; exact lsw_cons_ne _ _ _ _ (by decide)),
    findSubAux_skip _ _ _ _ (by rw [hq]; exact lsw_cons_ne _ _ _ _ (by decide)),
    findSubAux_here _ _ _ _ (by rw [hq, lsw_cons_eq]; exact listStartsWith_nil _)]

theorem parseHrefLine_mkLink (u : List Char) (h : '"' ∉ u) :
    parseHrefLine (aOpenL ++ u ++ aCloseL) =
      some ⟨String.mk ((splitOnChar '/' u).getLastD []), String.mk u⟩ := by
  have h1 : pyIndexFrom (aOpenL ++ u ++ aCloseL) hrefL 0 = some 3 := by
    unfold pyIndexFrom
    rw [List.drop_zero, List.append_assoc]
    exact findSub_href_aOpen (u ++ aCloseL)
  have h2 : pyIndexFrom (aOpenL ++ u ++ aCloseL) quoteL 3 = some 8 := by
    unfold pyIndexFrom
    rw [show (aOpenL ++ u ++ aCloseL).drop 3 =
      'h' :: 'r' :: 'e' :: 'f' :: '=' :: '"' :: (u ++ aCloseL) from by
        rw [List.append_assoc]; rfl]
    exact findSub_quote_after_href (u ++ aCloseL)
  have h3 : pyIndexFrom (aOpenL ++ u ++ aCloseL) quoteL (8 + 1) = some (9 + u.length) := by
    unfold pyIndexFrom
    rw [show (aOpenL ++ u ++ aCloseL).drop (8 + 1) = u ++ '"' :: (">Asana task</a>".data) from by
      rw [List.append_assoc]; rfl]
    exact findSubAux_quote u _ 9 h
  unfold parseHrefLine
  simp only [h1, h2, h3]
  have hdrop : (aOpenL ++ u ++ aCloseL).drop (8 + 1) = u ++ aCloseL := by
    rw [List.append_assoc]; rfl
  simp only [hdrop]
  rw [show 9 + u.length - (8 + 1) = u.length from by omega, List.take_left]

/-! ### Scanning the line list -/

theorem parseLoop_cons (line : List Char) (rest : List (List Char)) (b : Bool) :
    parseLoop (line :: rest) b =
      if line = summaryLabelL then parseLoop rest true
      else if b = true then
        match parseHrefLine line with
        | some info => ParseResult.found info
        | none => ParseResult.error
      else parseLoop rest b := rfl

theorem parseLoop_skip (pre rest : List (List Char))
    (h : ∀ l ∈ pre, l ≠ summaryLabelL) :
    parseLoop (pre ++ rest) false = parseLoop rest false := by
  induction pre with
  | nil => rfl
  | cons p t ih =>
    have hp : ¬ p = summaryLabelL := h p (List.mem_cons_self p t)
    rw [List.cons_append, parseLoop_cons, if_neg hp, if_neg (by decide)]
    exact ih (fun l hl => h l (List.mem_cons_of_mem p hl))

theorem parseLoop_all_ne (lines : List (List Char))
    (h : ∀ l ∈ lines, l ≠ summaryLabelL) :
    parseLoop lines false = ParseResult.absent := by
  have hs := parseLoop_skip lines [] h
  rw [List.append_nil] at hs
  rw [hs]
  rfl

theorem parseLoop_label_link (u : List Char) (rest : List (List Char)) (h : '"' ∉ u) :
    parseLoop (summaryLabelL :: (aOpenL ++ u ++ aCloseL) :: rest) false =
      ParseResult.found ⟨String.mk ((splitOnChar '/' u).getLastD []), String.mk u⟩ := by
  have hne : ¬ (aOpenL ++ u ++ aCloseL) = summaryLabelL := by
    intro heq
    have h1 : (aOpenL ++ u ++ aCloseL)[1]? = some 'a' := by
      rw [List.append_assoc,
        show aOpenL ++ (u ++ aCloseL) =
          '<' :: 'a' :: ' ' :: 'h' :: 'r' :: 'e' :: 'f' :: '=' :: '"' :: (u ++ aCloseL) from rfl]
      rfl
    rw [heq] at h1
    exact absurd h1 (by decide)
  rw [parseLoop_cons, if_pos rfl, parseLoop_cons, if_neg hne, if_pos rfl,
    parseHrefLine_mkLink u h]

/-! ### Line decomposition of an embedded body -/

theorem embed_data (body url : String) :
    (add_cm_details_to_pr_body body url).data =
      (body.data ++ '\n' :: '\n' :: (detailsOpenL ++ '\n' :: (summaryLabelL ++ '\n' ::
        (aOpenL ++ url.data ++ (aCloseL ++ '\n' :: detailsCloseL))))) ++ ['\n'] := by
  unfold add_cm_details_to_pr_body
  rw [String.data_append, String.data_append, String.data_append]
  rw [show ("\n\n<details>\n<summary>Change Management</summary>\n<a href=\"" : String).data =
    '\n' :: '\n' :: (detailsOpenL ++ '\n' :: (summaryLabelL ++ '\n' :: aOpenL)) from rfl]
  rw [show ("\">Asana task</a>\n</details>\n" : String).data =
    (aCloseL ++ '\n' :: detailsCloseL) ++ ['\n'] from rfl]
  simp [List.append_assoc]

theorem embed_lines (body url : String) (hn : '\n' ∉ url.data) :
    pySplitlinesL (add_cm_details_to_pr_body body url).data =
      splitOnNl body.data ++
        [[], detailsOpenL, summaryLabelL, aOpenL ++ url.data ++ aCloseL, detailsCloseL] := by
  rw [embed_data, pySplitlinesL_concat_nl]
  unfold splitOnNl
  rw [splitOnChar_append, splitOnChar_cons_sep, splitOnChar_append, splitOnChar_append]
  rw [show aOpenL ++ url.data ++ (aCloseL ++ '\n' :: detailsCloseL) =
    (aOpenL ++ url.data ++ aCloseL) ++ '\n' :: detailsCloseL from by
      simp [List.append_assoc]]
  rw [splitOnChar_append]
  rw [show splitOnChar '\n' detailsOpenL = [detailsOpenL] from by decide,
    show splitOnChar '\n' summaryLabelL = [summaryLabelL] from by decide,
    show splitOnChar '\n' detailsCloseL = [detailsCloseL] from by decide,
    splitOnChar_eq_single '\n' (aOpenL ++ url.data ++ aCloseL) (by
      intro hmem
      rcases List.mem_append.mp hmem with hmem | hmem
      · rcases List.mem_append.mp hmem with hmem | hmem
        · exact absurd hmem (by decide)
        · exact hn hmem
      · exact absurd hmem (by decide))]
  simp

/-! ### The strip loop on block-free lines -/

/-- Joining lines back, each with the `"\n"` prefix the loop adds. -/
def plainJoin : List (List Char) → List Char
  | [] => []
  | l :: ls => '\n' :: (l ++ plainJoin ls)

theorem plainJoin_cons (l : List Char) (ls : List (List Char)) :
    plainJoin (l :: ls) = '\n' :: (l ++ plainJoin ls) := rfl

theorem removeCmLoop_plain_step (line : List Char) (rest : List (List Char)) (nb : List Char)
    (h : ¬ line = detailsOpenL) :
    removeCmLoop (line :: rest) nb false false =
      removeCmLoop rest (nb ++ '\n' :: line) false false := by
  conv_lhs => unfold removeCmLoop
  rw [if_neg (by simp [h]), if_neg (by simp)]
  rfl

theorem removeCmLoop_plain (lines : List (List Char)) (nb : List Char)
    (h : ∀ l ∈ lines, l ≠ detailsOpenL) :
    removeCmLoop lines nb false false = nb ++ plainJoin lines := by
  induction lines generalizing nb with
  | nil => simp [removeCmLoop, plainJoin]
  | cons line rest ih =>
    rw [removeCmLoop_plain_step line rest nb (h line (List.mem_cons_self line rest)),
      ih (nb ++ '\n' :: line) (fun l hl => h l (List.mem_cons_of_mem line hl)),
      plainJoin_cons]
    simp

theorem plainJoin_ne_nil (L : List (List Char)) (h : L ≠ []) : plainJoin L ≠ [] := by
  cases L with
  | nil => exact absurd rfl h
  | cons l ls => simp [plainJoin]

theorem getLast?_not_mem (c : Char) (l : List Char) (h : c ∉ l) : l.getLast? ≠ some c := by
  induction l with
  | nil => simp
  | cons a t ih =>
    cases t with
    | nil =>
      have ha : ¬ a = c := fun hh => h (by simp [hh])
      simpa using ha
    | cons b u =>
      rw [List.getLast?_cons_cons]
      exact ih (fun hh => h (List.mem_cons_of_mem a hh))

theorem getLast_plainJoin_ne_nl (L : List (List Char)) (hps : ∀ p ∈ L, '\n' ∉ p)
    (hlast : L.getLast? ≠ some []) (hne : L ≠ []) :
    (plainJoin L).getLast? ≠ some '\n' := by
  induction L with
  | nil => exact absurd rfl hne
  | cons x ls ih =>
    cases ls with
    | nil =>
      have hx : x ≠ [] := fun hh => hlast (by simp [hh])
      have hxn : '\n' ∉ x := hps x (List.mem_cons_self x [])
      rw [plainJoin_cons, show plainJoin [] = [] from rfl, List.append_nil,
        show ('\n' :: x : List Char) = ['\n'] ++ x from rfl,
        List.getLast?_append_of_ne_nil _ hx]
      exact getLast?_not_mem '\n' x hxn
    | cons y rs =>
      have h2 : plainJoin (y :: rs) ≠ [] := plainJoin_ne_nil _ (by simp)
      rw [plainJoin_cons,
        show ('\n' :: (x ++ plainJoin (y :: rs)) : List Char) =
          ('\n' :: x) ++ plainJoin (y :: rs) from by simp,
        List.getLast?_append_of_ne_nil _ h2]
      exact ih (fun p hp => hps p (List.mem_cons_of_mem x hp))
        (by rw [List.getLast?_cons_cons] at hlast; exact hlast) (by simp)

theorem splitOnNl_plainJoin (L : List (List Char)) (h : ∀ p ∈ L, '\n' ∉ p) (hne : L ≠ []) :
    splitOnNl (plainJoin L) = [] :: L := by
  induction L with
  | nil => exact absurd rfl hne
  | cons x ls ih =>
    cases ls with
    | nil =>
      rw [plainJoin_cons, show plainJoin [] = [] from rfl, List.append_nil]
      unfold splitOnNl
      rw [splitOnChar_cons_sep, splitOnChar_eq_single _ _ (h x (List.mem_cons_self x []))]
    | cons y rs =>
      have ihy := ih (fun p hp => h p (List.mem_cons_of_mem x hp)) (by simp)
      have hyy : splitOnChar '\n' (y ++ plainJoin rs) = y :: rs := by
        unfold splitOnNl at ihy
        rw [plainJoin_cons, splitOnChar_cons_sep] at ihy
        exact (List.cons_inj_right _).mp ihy
      unfold splitOnNl
      rw [plainJoin_cons, splitOnChar_cons_sep, plainJoin_cons, splitOnChar_append,
        splitOnChar_eq_single _ _ (h x (List.mem_cons_self _ _)), hyy]
      rfl

/-! ### The strip loop keeps the accumulator empty or newline-headed -/

theorem headInv_append_nl (m x : List Char) (hm : m = [] ∨ m.head? = some '\n') :
    m ++ '\n' :: x = [] ∨ (m ++ '\n' :: x).head? = some '\n' := by
  rcases hm with hm | hm
  · subst hm; right; rfl
  · right
    cases m with
    | nil => rfl
    | cons a l => simpa using hm

theorem removeCmLoop_head_inv (lines : List (List Char)) (nb : List Char) (i t : Bool)
    (h : nb = [] ∨ nb.head? = some '\n') :
    removeCmLoop lines nb i t = [] ∨ (removeCmLoop lines nb i t).head? = some '\n' := by
  induction lines generalizing nb i t with
  | nil => simpa [removeCmLoop] using h
  | cons line rest ih =>
    by_cases h1 : t = false ∧ line = detailsOpenL
    · rw [show removeCmLoop (line :: rest) nb i t = removeCmLoop rest nb i true from by
        conv_lhs => unfold removeCmLoop
        rw [if_pos h1]]
      exact ih nb i true h
    · by_cases h2 : t = true ∧ line = summaryLabelL
      · rw [show removeCmLoop (line :: rest) nb i t = removeCmLoop rest nb true false from by
          conv_lhs => unfold removeCmLoop
          rw [if_neg h1, if_pos h2]]
        exact ih nb true false h
      · rw [show removeCmLoop (line :: rest) nb i t =
            removeCmLoop rest
              (if i = false then (if t = true then nb ++ nlDetailsOpenL else nb) ++ '\n' :: line
               else (if t = true then nb ++ nlDetailsOpenL else nb))
              (if i = true ∧ line = detailsCloseL then false else i) t from by
          conv_lhs => unfold removeCmLoop
          rw [if_neg h1, if_neg h2]]
        apply ih
        have base : (if t = true then nb ++ nlDetailsOpenL else nb) = [] ∨
            (if t = true then nb ++ nlDetailsOpenL else nb).head? = some '\n' := by
          cases t with
          | false => rw [if_neg (by decide)]; exact h
          | true => rw [if_pos rfl]; exact headInv_append_nl nb detailsOpenL h
        cases i with
        | false => rw [if_pos rfl]; exact headInv_append_nl _ line base
        | true => rw [if_neg (by decide)]; exact base

/-! ### Claim C1 -/

/-- Claim C1 is false as stated: a body that itself contains the label line
followed by a link to a different URL makes `extract(embed(body, url))` return
that earlier URL, not `url`. -/
theorem roundtrip_counterexample :
    parse_cm_info_from_pr_body
        (add_cm_details_to_pr_body
          "<summary>Change Management</summary>\n<a href=\"https://other/9\">x</a>"
          "https://service/0/tasks/123") =
      ParseResult.found ⟨"9", "https://other/9"⟩ ∧
    ("https://other/9" : String) ≠ "https://service/0/tasks/123" :=
  ⟨by decide, by decide⟩

/-- Claim C1 (amended): for every body none of whose lines is the label line,
and every task URL containing no double quote and no newline,
`parse_cm_info_from_pr_body (add_cm_details_to_pr_body body url)` returns a
present TrackingTaskRef whose `task_url` equals `url` (and whose `task_gid` is
the final `/`-segment of `url`). -/
theorem roundtrip_amended (body url : String)
    (hb : ∀ l ∈ splitOnNl body.data, l ≠ summaryLabelL)
    (hq : '"' ∉ url.data) (hn : '\n' ∉ url.data) :
    parse_cm_info_from_pr_body (add_cm_details_to_pr_body body url) =
      ParseResult.found ⟨String.mk ((splitOnChar '/' url.data).getLastD []), url⟩ := by
  unfold parse_cm_info_from_pr_body
  rw [embed_lines body url hn,
    show splitOnNl body.data ++
        [[], detailsOpenL, summaryLabelL, aOpenL ++ url.data ++ aCloseL, detailsCloseL] =
      (splitOnNl body.data ++ [[], detailsOpenL]) ++
        (summaryLabelL :: (aOpenL ++ url.data ++ aCloseL) :: [detailsCloseL]) from by simp,
    parseLoop_skip _ _ (by
      intro l hl
      rcases List.mem_append.mp hl with hl | hl
      · exact hb l hl
      · rcases List.mem_cons.mp hl with hl | hl
        · rw [hl]; decide
        · rw [List.mem_singleton.mp hl]; decide),
    parseLoop_label_link url.data [detailsCloseL] hq]

/-- Claim C1 witness: the amended round trip at a concrete body and URL. -/
theorem roundtrip_amended_witness :
    parse_cm_info_from_pr_body
        (add_cm_details_to_pr_body "hello" "https://service/0/tasks/123") =
      ParseResult.found
        ⟨String.mk ((splitOnChar '/' ("https://service/0/tasks/123" : String).data).getLastD []),
         "https://service/0/tasks/123"⟩ :=
  roundtrip_amended "hello" "https://service/0/tasks/123" (by decide) (by decide) (by decide)

/-! ### Claim C2 -/

/-- Claim C2: on a body holding an unrelated `<details>` block followed by the
AnnotationBlock, `remove_cm_details_from_pr_body` interleaves a spurious
`<details>` line before every line after the unrelated block's opener (the
`test_in_cm` flag is never reset) and leaves two stray `<details>` lines where
the AnnotationBlock stood, so the unrelated block's content is no longer
present unchanged — the code contradicts the behaviour the spec requires
(and the spec itself flags this very accumulation defect). -/
theorem strip_duplicates_unrelated_block :
    remove_cm_details_from_pr_body
        "<details>\n<summary>Other</summary>\nx\n</details>\n\n<details>\n<summary>Change Management</summary>\n<a href=\"https://service/0/tasks/123\">Asana task</a>\n</details>\n" =
      "\n<details>\n<summary>Other</summary>\n<details>\nx\n<details>\n</details>\n<details>\n\n<details>\n<details>" ∧
    containsSub
        ("\n<details>\n<summary>Other</summary>\n<details>\nx\n<details>\n</details>\n<details>\n\n<details>\n<details>" : String).data
        ("<summary>Other</summary>\nx" : String).data = false :=
  ⟨by decide, by decide⟩

/-! ### Claim C3 -/

/-- Claim C3 is false as stated: strip is not idempotent, already on the
one-character body `"a"`. -/
theorem strip_not_idempotent_counterexample :
    remove_cm_details_from_pr_body (remove_cm_details_from_pr_body "a") ≠
      remove_cm_details_from_pr_body "a" := by decide

/-- Claim C3 (amended): strip is not idempotent — each pass prefixes every
retained line with a newline.  For every non-empty body that does not end in a
newline and has no `<details>` line, `strip (strip body)` equals `"\n"`
prepended to `strip body`, hence differs from `strip body`. -/
theorem strip_strip_amended (body : String) (h0 : body ≠ "")
    (h1 : body.data.getLast? ≠ some '\n')
    (h2 : ∀ l ∈ splitOnNl body.data, l ≠ detailsOpenL) :
    remove_cm_details_from_pr_body (remove_cm_details_from_pr_body body) =
      "\n" ++ remove_cm_details_from_pr_body body ∧
    remove_cm_details_from_pr_body (remove_cm_details_from_pr_body body) ≠
      remove_cm_details_from_pr_body body := by
  have hdata : body.data ≠ [] := by
    intro hh
    apply h0
    cases body with
    | mk l =>
      have hh' : l = [] := hh
      rw [hh']
  have hlines : pySplitlinesL body.data = splitOnNl body.data := by
    unfold pySplitlinesL
    rw [if_neg hdata, if_neg h1]
  have hLne : splitOnNl body.data ≠ [] := splitOnChar_ne_nil '\n' body.data
  have hpieces : ∀ p ∈ splitOnNl body.data, '\n' ∉ p :=
    splitOnChar_pieces_no_sep '\n' body.data
  have hlast : (splitOnNl body.data).getLast? ≠ some [] :=
    splitOnChar_last_ne_nil '\n' body.data hdata h1
  have hstrip1 : remove_cm_details_from_pr_body body =
      String.mk (plainJoin (splitOnNl body.data)) := by
    unfold remove_cm_details_from_pr_body
    rw [hlines, removeCmLoop_plain _ [] h2]
    rfl
  have hstrip2 : remove_cm_details_from_pr_body
        (String.mk (plainJoin (splitOnNl body.data))) =
      String.mk ('\n' :: plainJoin (splitOnNl body.data)) := by
    unfold remove_cm_details_from_pr_body
    have hjne : plainJoin (splitOnNl body.data) ≠ [] := plainJoin_ne_nil _ hLne
    have hjlast : (plainJoin (splitOnNl body.data)).getLast? ≠ some '\n' :=
      getLast_plainJoin_ne_nl _ hpieces hlast hLne
    rw [show (String.mk (plainJoin (splitOnNl body.data))).data =
        plainJoin (splitOnNl body.data) from rfl,
      show pySplitlinesL (plainJoin (splitOnNl body.data)) =
        splitOnNl (plainJoin (splitOnNl body.data)) from by
          unfold pySplitlinesL; rw [if_neg hjne, if_neg hjlast],
      splitOnNl_plainJoin _ hpieces hLne,
      removeCmLoop_plain _ [] (by
        intro l hl
        rcases List.mem_cons.mp hl with hl | hl
        · rw [hl]; decide
        · exact h2 l hl),
      plainJoin_cons]
    rfl
  constructor
  · rw [hstrip1, hstrip2]
    rfl
  · rw [hstrip1, hstrip2]
    intro heq
    have hde : ('\n' :: plainJoin (splitOnNl body.data)) = plainJoin (splitOnNl body.data) :=
      congrArg String.data heq
    have hlen := congrArg List.length hde
    simp at hlen

/-- Claim C3 witness: the amended statement at the concrete body `"a"`. -/
theorem strip_strip_amended_witness :
    remove_cm_details_from_pr_body (remove_cm_details_from_pr_body "a") =
      "\n" ++ remove_cm_details_from_pr_body "a" ∧
    remove_cm_details_from_pr_body (remove_cm_details_from_pr_body "a") ≠
      remove_cm_details_from_pr_body "a" :=
  strip_strip_amended "a" (by decide) (by decide) (by decide)

/-! ### Claim C4 -/

/-- Claim C4 is false as stated: when the label line is present and the next
line carries no href link, extraction raises `ValueError` (modelled by
`ParseResult.error`) instead of returning absent. -/
theorem parse_malformed_raises_counterexample :
    parse_cm_info_from_pr_body "<summary>Change Management</summary>\nxyz" =
      ParseResult.error := by decide

/-- Claim C4 (amended): when the label line never occurs, extraction returns
absent without raising; but when the label line is present and the immediately
following line carries no `href`, extraction raises (`ParseResult.error`)
rather than returning absent. -/
theorem parse_malformed_amended :
    (∀ body : String, (∀ l ∈ pySplitlinesL body.data, l ≠ summaryLabelL) →
        parse_cm_info_from_pr_body body = ParseResult.absent) ∧
    (∀ (body : String) (pre : List (List Char)) (bad : List Char) (rest : List (List Char)),
        pySplitlinesL body.data = pre ++ summaryLabelL :: bad :: rest →
        (∀ l ∈ pre, l ≠ summaryLabelL) → bad ≠ summaryLabelL →
        containsSub bad hrefL = false →
        parse_cm_info_from_pr_body body = ParseResult.error) := by
  constructor
  · intro body hb
    unfold parse_cm_info_from_pr_body
    exact parseLoop_all_ne _ hb
  · intro body pre bad rest hl hpre hbad hhref
    unfold parse_cm_info_from_pr_body
    have hbadhref : parseHrefLine bad = none := by
      unfold parseHrefLine
      rw [show pyIndexFrom bad hrefL 0 = findSubAux hrefL bad 0 from by
        unfold pyIndexFrom; rw [List.drop_zero]]
      rw [containsSub_false_find bad hrefL hhref]
    rw [hl, parseLoop_skip pre _ hpre, parseLoop_cons, if_pos rfl,
      parseLoop_cons, if_neg hbad, if_pos rfl, hbadhref]

/-- Claim C4 witness: both amended branches at concrete bodies. -/
theorem parse_malformed_amended_witness :
    parse_cm_info_from_pr_body "hello world" = ParseResult.absent ∧
    parse_cm_info_from_pr_body "<summary>Change Management</summary>\nno link here" =
      ParseResult.error :=
  ⟨parse_malformed_amended.1 "hello world" (by decide),
   parse_malformed_amended.2 "<summary>Change Management</summary>\nno link here"
     [] ("no link here".data) [] (by decide) (by decide) (by decide) (by decide)⟩

/-! ### Claim C5 -/

/-- Claim C5 is false as stated: on the empty body the embedded result starts
with two newline characters (a blank line before the block) and the anchor text
is `Asana task`, not the single-newline string the claim gives. -/
theorem scenario1_counterexample :
    add_cm_details_to_pr_body "" "https://service/0/tasks/123" ≠
      "\n<details>\n<summary>Change Management</summary>\n<a href=\"https://service/0/tasks/123\">...</a>\n</details>\n" := by
  decide

/-- Claim C5 (amended): embedding into the empty body produces exactly the block
with a leading blank line (two newlines) and anchor text `Asana task`, and the
identifier `123` is extracted back from the permalink ending in `/123`. -/
theorem scenario1_amended :
    add_cm_details_to_pr_body "" "https://service/0/tasks/123" =
      "\n\n<details>\n<summary>Change Management</summary>\n<a href=\"https://service/0/tasks/123\">Asana task</a>\n</details>\n" ∧
    parse_cm_info_from_pr_body
        "\n\n<details>\n<summary>Change Management</summary>\n<a href=\"https://service/0/tasks/123\">Asana task</a>\n</details>\n" =
      ParseResult.found ⟨"123", "https://service/0/tasks/123"⟩ :=
  ⟨by decide, by decide⟩

/-! ### Claim C6 -/

/-- Claim C6 is false as stated: a body can contain the label line immediately
followed by a well-formed link line (here lines 3 and 4) while an earlier label
line is followed by a line without a link, so parsing raises instead of
returning that link's URL. -/
theorem identifier_derivation_counterexample :
    pySplitlinesL
        ("<summary>Change Management</summary>\nxyz\n<summary>Change Management</summary>\n<a href=\"https://s/7\">Asana task</a>" : String).data =
      [summaryLabelL, ("xyz" : String).data, summaryLabelL,
        aOpenL ++ ("https://s/7" : String).data ++ aCloseL] ∧
    parse_cm_info_from_pr_body
        "<summary>Change Management</summary>\nxyz\n<summary>Change Management</summary>\n<a href=\"https://s/7\">Asana task</a>" =
      ParseResult.error :=
  ⟨by decide, by decide⟩

/-- Claim C6 (amended): for every body whose first label line is immediately
followed by a link line `<a href="u">Asana task</a>` with `u` quote-free,
`parse_cm_info_from_pr_body` returns a TrackingTaskRef whose `task_url` is `u`
and whose `task_gid` is the final `/`-segment of `u`. -/
theorem identifier_derivation_amended (body : String) (pre rest : List (List Char))
    (u : String)
    (hl : pySplitlinesL body.data =
      pre ++ summaryLabelL :: (aOpenL ++ u.data ++ aCloseL) :: rest)
    (hpre : ∀ l ∈ pre, l ≠ summaryLabelL)
    (hq : '"' ∉ u.data) :
    parse_cm_info_from_pr_body body =
      ParseResult.found ⟨String.mk ((splitOnChar '/' u.data).getLastD []), u⟩ := by
  unfold parse_cm_info_from_pr_body
  rw [hl, parseLoop_skip pre _ hpre, parseLoop_label_link u.data rest hq]

/-- Claim C6 witness: the amended statement at a concrete body. -/
theorem identifier_derivation_amended_witness :
    parse_cm_info_from_pr_body
        "intro\n<summary>Change Management</summary>\n<a href=\"https://s/7\">Asana task</a>\nafter" =
      ParseResult.found
        ⟨String.mk ((splitOnChar '/' ("https://s/7" : String).data).getLastD []),
         "https://s/7"⟩ :=
  identifier_derivation_amended
    "intro\n<summary>Change Management</summary>\n<a href=\"https://s/7\">Asana task</a>\nafter"
    [("intro" : String).data] [("after" : String).data] "https://s/7"
    (by decide) (by decide) (by decide)

/-! ### Claim C7 -/

/-- Claim C7: when the body already contains the AnnotationBlock (the label
substring is present and parsing yields a TrackingTaskRef) and the action is
`edited`, the run's only remote effect is a single rename call titled
`"{repoName}: {title}"`; no repository-host call occurs and the body on the
host is left unchanged. -/
theorem edited_only_renames (repo : String) (prNumber : Nat)
    (prTitle prUserLogin prHtmlHref : String) (body : String) (merged : Bool)
    (createdGid createdUrl : String) (info : CmInfo) (repoNameL : List Char)
    (hc : containsSub body.data summaryLabelL = true)
    (hp : parse_cm_info_from_pr_body body = ParseResult.found info)
    (hr : (splitOnChar '/' repo.data)[1]? = some repoNameL) :
    runMain repo prNumber prTitle prUserLogin prHtmlHref (some body) merged "edited"
        createdGid createdUrl =
      Except.ok
        ([RemoteEffect.renameTask info.task_gid (String.mk repoNameL ++ ": " ++ prTitle)],
          body) := by
  unfold runMain
  simp only [Option.getD_some, hc, hp, hr, Bool.true_eq_false, if_false, if_true,
    List.nil_append]
  rw [if_neg (by decide : ¬ ("edited" : String) = "closed")]

/-- Claim C7 witness: the edited transition on a concrete run. -/
theorem edited_only_renames_witness :
    runMain "org/repo" 1 "Add feature" "octocat" "https://github.com/org/repo/pull/1"
        (some "\n\n<details>\n<summary>Change Management</summary>\n<a href=\"https://service/0/tasks/123\">Asana task</a>\n</details>\n")
        false "edited" "cg" "cu" =
      Except.ok
        ([RemoteEffect.renameTask "123" (String.mk ("repo" : String).data ++ ": " ++ "Add feature")],
          "\n\n<details>\n<summary>Change Management</summary>\n<a href=\"https://service/0/tasks/123\">Asana task</a>\n</details>\n") :=
  edited_only_renames "org/repo" 1 "Add feature" "octocat" "https://github.com/org/repo/pull/1"
    "\n\n<details>\n<summary>Change Management</summary>\n<a href=\"https://service/0/tasks/123\">Asana task</a>\n</details>\n"
    false "cg" "cu" ⟨"123", "https://service/0/tasks/123"⟩ ("repo" : String).data
    (by decide) (by decide) (by decide)

/-! ### Claim C8 -/

/-- Claim C8 is false as stated: status 100 is not a 2xx success code, yet both
clients return the parsed JSON without raising, because the source only checks
`status_code > 299`. -/
theorem post_status_counterexample :
    post_to_asana "/tasks" "POST" ⟨100, "informational", "{}"⟩ = Except.ok "{}" ∧
    post_to_github "/repos/o/r/pulls/1" "POST" ⟨100, "informational", "{}"⟩ =
      Except.ok "{}" ∧
    is2xx 100 = false :=
  ⟨rfl, rfl, rfl⟩

/-- Claim C8 (amended): both clients raise exactly when `status_code > 299`,
with the raw response body as the message; every status at most 299 (all 2xx
and also sub-200 codes) returns the parsed JSON without raising. -/
theorem post_status_amended (uri method : String) (res : HttpResponse) :
    (res.status_code > 299 →
      post_to_asana uri method res = Except.error res.text ∧
      post_to_github uri method res = Except.error res.text) ∧
    (res.status_code ≤ 299 →
      post_to_asana uri method res = Except.ok res.jsonBody ∧
      post_to_github uri method res = Except.ok res.jsonBody) := by
  constructor
  · intro h
    exact ⟨by unfold post_to_asana; rw [if_pos h],
           by unfold post_to_github; rw [if_pos h]⟩
  · intro h
    have hn : ¬ res.status_code > 299 := by omega
    exact ⟨by unfold post_to_asana; rw [if_neg hn],
           by unfold post_to_github; rw [if_neg hn]⟩

/-- Claim C8 witness: a 404 raises with the body text; a 204 returns the JSON. -/
theorem post_status_amended_witness :
    post_to_asana "/tasks/9" "PUT" ⟨404, "not found", "{}"⟩ = Except.error "not found" ∧
    post_to_github "/repos/o/r/pulls/1" "POST" ⟨204, "", "null"⟩ = Except.ok "null" :=
  ⟨((post_status_amended "/tasks/9" "PUT" ⟨404, "not found", "{}"⟩).1 (by decide)).1,
   ((post_status_amended "/repos/o/r/pulls/1" "POST" ⟨204, "", "null"⟩).2 (by decide)).2⟩

/-! ### Claim C9 -/

/-- Claim C9: extraction from the empty body returns absent, and extraction
from any body none of whose lines is the label line returns absent. -/
theorem parse_absent_cases :
    parse_cm_info_from_pr_body "" = ParseResult.absent ∧
    (∀ body : String, (∀ l ∈ pySplitlinesL body.data, l ≠ summaryLabelL) →
      parse_cm_info_from_pr_body body = ParseResult.absent) := by
  constructor
  · rfl
  · intro body hb
    unfold parse_cm_info_from_pr_body
    exact parseLoop_all_ne _ hb

/-- Claim C9 witness: absence on a concrete label-free body. -/
theorem parse_absent_cases_witness :
    parse_cm_info_from_pr_body "just a regular body\nwith two lines" =
      ParseResult.absent :=
  parse_absent_cases.2 "just a regular body\nwith two lines" (by decide)

/-! ### Claim C10 -/

/-- Claim C10 is false as stated: stripping the non-empty body `"<details>"`
returns the empty string, which does not begin with a newline; and the
non-empty block-free body `"\n"` is returned unchanged. -/
theorem strip_leading_newline_counterexample :
    remove_cm_details_from_pr_body "<details>" = "" ∧
    remove_cm_details_from_pr_body "\n" = "\n" :=
  ⟨by decide, by decide⟩

/-- Claim C10 (amended): for every body, `remove_cm_details_from_pr_body`
returns either the empty string or a string beginning with a newline character
(every retained line is emitted with a `"\n"` prefix). -/
theorem strip_leading_newline_amended (body : String) :
    remove_cm_details_from_pr_body body = "" ∨
    (remove_cm_details_from_pr_body body).data.head? = some '\n' := by
  unfold remove_cm_details_from_pr_body
  rcases removeCmLoop_head_inv (pySplitlinesL body.data) [] false false (Or.inl rfl)
    with h | h
  · left; rw [h]
  · right; exact h
